import Mathlib

/-!
Shallow embedding of the Game of Life engine from `src/game_of_life.rs`.

The Rust `World` struct packs a `world_size × world_size` boolean grid into a
single arbitrary-precision unsigned integer (`BigUint`), modelled here as `Nat`.
Indices are `u16` in the source; since `world_size ≤ 50`, all index arithmetic
stays far below `2^16` (proved below), so modelling indices as `Nat` is faithful.
`Vec<BigUint>` becomes `List Nat` (push = append at the end), and the
`Result<World, &str>` of the constructor becomes `Except String World`.
-/

namespace GameOfLife

/-- `World::MAX_WORLD_SIZE` from the source. -/
def MAX_WORLD_SIZE : Nat := 50

/-- `World::UNDERPOPULATION_TRESHOLD` from the source. -/
def UNDERPOPULATION_TRESHOLD : Nat := 2

/-- `World::OVERPOPULATION_TRESHOLD` from the source. -/
def OVERPOPULATION_TRESHOLD : Nat := 3

/-- `World::REPRODUCTION_TRIGGER` from the source. -/
def REPRODUCTION_TRIGGER : Nat := 3

/-- `World::get_cell`: `if ((world & 2^index) >> index) == 1 {1} else {0}`. -/
def get_cell (world index : Nat) : Nat :=
  if (world &&& 2 ^ index) >>> index = 1 then 1 else 0

/-- `World::count_nearby_cells`: sums `get_cell` over the guarded neighbour
offsets, with the source's boundary flags (including its strict
`index > world_size² − world_size` test for `last_row`).  The source
accumulates into a mutable counter; the sum below adds the same terms in the
same order. -/
def count_nearby_cells (world world_size index : Nat) : Nat :=
  let first_col := index % world_size = 0
  let last_col := (index + 1) % world_size = 0
  let first_row := index < world_size
  let last_row := index > world_size * world_size - world_size
  (if ¬ first_col then get_cell world (index - 1) else 0)
  + (if ¬ last_col then get_cell world (index + 1) else 0)
  + (if ¬ first_row then
      get_cell world (index - world_size)
      + (if ¬ first_col then get_cell world (index - world_size - 1) else 0)
      + (if ¬ last_col then get_cell world (index - world_size + 1) else 0)
    else 0)
  + (if ¬ last_row then
      get_cell world (index + world_size)
      + (if ¬ first_col then get_cell world (index + world_size - 1) else 0)
      + (if ¬ last_col then get_cell world (index + world_size + 1) else 0)
    else 0)

/-- The body of the `for i in 0..world_size.pow(2)` loop in `World::advance`:
one update of the `new_world` accumulator for index `i`, with all reads
(`count_nearby_cells`, `get_cell`) taken on the unmodified `world` snapshot. -/
def advance_step (world world_size new_world i : Nat) : Nat :=
  let cell_count := count_nearby_cells world world_size i
  let current := get_cell world i
  if current = 1 ∧ (cell_count < UNDERPOPULATION_TRESHOLD ∨ cell_count > OVERPOPULATION_TRESHOLD) then
    new_world ^^^ (1 <<< i)
  else if current = 0 ∧ cell_count = REPRODUCTION_TRIGGER then
    new_world ||| (1 <<< i)
  else
    new_world

/-- The full loop of `World::advance`: fold `advance_step` over
`i ∈ [0, world_size²)`, starting from a clone of the current world. -/
def next_world (world world_size : Nat) : Nat :=
  (List.range (world_size * world_size)).foldl (advance_step world world_size) world

/-- The `World` struct of the source. -/
structure World where
  world_size : Nat
  world : Nat
  states : List Nat
  stable : Bool
deriving Repr, DecidableEq

/-- `World::new`: validates the size and builds the initial state. -/
def World.new (seed : Nat) (world_size : Nat) : Except String World :=
  if world_size > MAX_WORLD_SIZE then
    Except.error "World size exceeds maximum allowed."
  else if world_size < 1 then
    Except.error "World size must be greater than 0"
  else
    Except.ok { world := seed, world_size := world_size, states := [seed], stable := false }

/-- `World::is_stable`. -/
def World.is_stable (s : World) : Bool := s.stable

/-- `World::advance`: no-op when stable; otherwise compute the next world,
latch stability when it already occurred, else commit it and push it onto
the history. -/
def World.advance (s : World) : World :=
  if s.stable then s
  else
    let new_world := next_world s.world s.world_size
    if new_world ∈ s.states then
      { s with stable := true }
    else
      { s with world := new_world, states := s.states ++ [new_world] }

/-- The per-bit Conway rule as the spec states it, used to characterise
`next_world` bit by bit. -/
def rule_bit (world world_size i : Nat) : Bool :=
  if get_cell world i = 1 ∧
      (count_nearby_cells world world_size i < 2 ∨ count_nearby_cells world world_size i > 3) then
    false
  else if get_cell world i = 0 ∧ count_nearby_cells world world_size i = 3 then
    true
  else
    world.testBit i

theorem get_cell_eq_toNat_testBit (w i : Nat) : get_cell w i = (w.testBit i).toNat := by
  have h : (w &&& 2 ^ i) >>> i = (w.testBit i).toNat := by
    apply Nat.eq_of_testBit_eq
    intro j
    rw [Nat.testBit_shiftRight, Nat.testBit_and, Nat.testBit_two_pow]
    cases hb : w.testBit i with
    | false =>
      rcases eq_or_ne j 0 with hj | hj
      · subst hj; simpa using hb
      · simp [Nat.testBit_two_pow, (by omega : i ≠ i + j), hj]
    | true =>
      rcases eq_or_ne j 0 with hj | hj
      · subst hj
        simpa [Nat.testBit_two_pow] using hb
      · have h1 : Nat.testBit 1 j = false := by
          have : (1 : Nat) = 2 ^ 0 := rfl
          rw [this, Nat.testBit_two_pow]
          simp [Ne.symm hj]
        simp [h1, Nat.testBit_two_pow, (by omega : i ≠ i + j), hj]
  rw [get_cell, h]
  cases w.testBit i <;> simp

theorem get_cell_le_one (w i : Nat) : get_cell w i ≤ 1 := by
  rw [get_cell_eq_toNat_testBit]
  cases w.testBit i <;> simp

theorem get_cell_eq_one_iff (w i : Nat) : get_cell w i = 1 ↔ w.testBit i = true := by
  rw [get_cell_eq_toNat_testBit]
  cases w.testBit i <;> simp

theorem get_cell_eq_zero_iff (w i : Nat) : get_cell w i = 0 ↔ w.testBit i = false := by
  rw [get_cell_eq_toNat_testBit]
  cases w.testBit i <;> simp

theorem testBit_one_shiftLeft (i j : Nat) : Nat.testBit (1 <<< i) j = decide (i = j) := by
  rw [Nat.one_shiftLeft, Nat.testBit_two_pow]

theorem advance_step_testBit_ne (world world_size nw i j : Nat) (h : j ≠ i) :
    (advance_step world world_size nw i).testBit j = nw.testBit j := by
  simp only [advance_step]
  split_ifs with h1 h2
  · rw [Nat.testBit_xor, testBit_one_shiftLeft]
    simp [Ne.symm h]
  · rw [Nat.testBit_or, testBit_one_shiftLeft]
    simp [Ne.symm h]
  · rfl

theorem advance_step_testBit_self (world world_size nw i : Nat) :
    (advance_step world world_size nw i).testBit i =
      if get_cell world i = 1 ∧
          (count_nearby_cells world world_size i < 2 ∨ count_nearby_cells world world_size i > 3) then
        !(nw.testBit i)
      else if get_cell world i = 0 ∧ count_nearby_cells world world_size i = 3 then
        true
      else
        nw.testBit i := by
  simp only [advance_step, UNDERPOPULATION_TRESHOLD, OVERPOPULATION_TRESHOLD,
    REPRODUCTION_TRIGGER]
  split_ifs with h1 h2
  · rw [Nat.testBit_xor, testBit_one_shiftLeft]
    simp
  · rw [Nat.testBit_or, testBit_one_shiftLeft]
    simp
  · rfl

theorem foldl_advance_step_testBit (world world_size : Nat) :
    ∀ n j : Nat,
      ((List.range n).foldl (advance_step world world_size) world).testBit j =
        if j < n then rule_bit world world_size j else world.testBit j := by
  intro n
  induction n with
  | zero => intro j; simp
  | succ n ih =>
    intro j
    rw [List.range_succ, List.foldl_append]
    simp only [List.foldl_cons, List.foldl_nil]
    rcases lt_trichotomy j n with hj | hj | hj
    · rw [advance_step_testBit_ne _ _ _ _ _ (by omega), ih]
      simp [hj, (by omega : j < n + 1)]
    · subst hj
      have hbit : ((List.range j).foldl (advance_step world world_size) world).testBit j =
          world.testBit j := by
        rw [ih]; simp
      rw [advance_step_testBit_self, hbit, if_pos (by omega : j < j + 1)]
      unfold rule_bit
      split_ifs with h1 h2
      · simp [(get_cell_eq_one_iff world j).mp h1.1]
      · rfl
      · rfl
    · rw [advance_step_testBit_ne _ _ _ _ _ (by omega), ih,
        if_neg (by omega : ¬ j < n), if_neg (by omega : ¬ j < n + 1)]

theorem next_world_testBit (world world_size j : Nat) :
    (next_world world world_size).testBit j =
      if j < world_size * world_size then rule_bit world world_size j
      else world.testBit j :=
  foldl_advance_step_testBit world world_size (world_size * world_size) j

theorem shiftRight_and_one (w i : Nat) : w >>> i &&& 1 = (w.testBit i).toNat := by
  rw [Nat.and_one_is_mod, Nat.shiftRight_eq_div_pow, Nat.testBit_to_div_mod]
  rcases Nat.mod_two_eq_zero_or_one (w / 2 ^ i) with h | h <;> simp [h]

/-- The 3×3 scenario-A world: seed bits `011010011`, freshly constructed. -/
def blinker_world : World :=
  { world_size := 3, world := 0b011010011, states := [0b011010011], stable := false }

/-- **C8.** For every state, size, and index with `index < size²`,
`get_cell` equals `(state >> index) & 1`, returns only 0 or 1, and is a pure
function of its arguments (identical arguments yield identical results). -/
theorem claim_get_cell_pure (state size index s2 i2 : Nat)
    (h : index < size * size) (hs : s2 = state) (hi : i2 = index) :
    get_cell state index = state >>> index &&& 1 ∧
    (get_cell state index = 0 ∨ get_cell state index = 1) ∧
    get_cell s2 i2 = get_cell state index := by
  subst hs; subst hi
  refine ⟨?_, ?_, rfl⟩
  · rw [shiftRight_and_one, get_cell_eq_toNat_testBit]
  · rw [get_cell_eq_toNat_testBit]
    cases hb : Nat.testBit s2 i2 <;> simp [hb]

theorem claim_get_cell_pure_witness :
    (0 : Nat) < 3 * 3 ∧ (211 : Nat) = 211 ∧ (0 : Nat) = 0 ∧
    (get_cell 211 0 = 211 >>> 0 &&& 1 ∧
      (get_cell 211 0 = 0 ∨ get_cell 211 0 = 1) ∧
      get_cell 211 0 = get_cell 211 0) :=
  ⟨by decide, rfl, rfl, claim_get_cell_pure 211 3 0 211 0 (by decide) rfl rfl⟩

/-- **C1.** For a not-yet-stable `World`, `advance` computes the next state
against the unmodified snapshot of the current state: for every index
`i < size²`, bit `i` of the computed next state is 0 when the current cell is
alive with fewer than 2 or more than 3 live neighbours, 1 when the current
cell is dead with exactly 3 live neighbours, and the current bit otherwise —
all neighbour counts evaluated on the current state; and when that next state
is new, `advance` installs it as the current state. -/
theorem claim_advance_conway_rule (s : World) (i : Nat)
    (hs : s.stable = false) (hi : i < s.world_size * s.world_size) :
    ((next_world s.world s.world_size).testBit i =
      if get_cell s.world i = 1 ∧
          (count_nearby_cells s.world s.world_size i < 2 ∨
            count_nearby_cells s.world s.world_size i > 3) then
        false
      else if get_cell s.world i = 0 ∧ count_nearby_cells s.world s.world_size i = 3 then
        true
      else
        s.world.testBit i) ∧
    (next_world s.world s.world_size ∉ s.states →
      s.advance.world = next_world s.world s.world_size) := by
  constructor
  · rw [next_world_testBit, if_pos hi]
    rfl
  · intro hmem
    simp only [World.advance, hs]
    simp [hmem]

theorem claim_advance_conway_rule_witness :
    blinker_world.stable = false ∧
    0 < blinker_world.world_size * blinker_world.world_size ∧
    (((next_world blinker_world.world blinker_world.world_size).testBit 0 =
      if get_cell blinker_world.world 0 = 1 ∧
          (count_nearby_cells blinker_world.world blinker_world.world_size 0 < 2 ∨
            count_nearby_cells blinker_world.world blinker_world.world_size 0 > 3) then
        false
      else if get_cell blinker_world.world 0 = 0 ∧
          count_nearby_cells blinker_world.world blinker_world.world_size 0 = 3 then
        true
      else
        blinker_world.world.testBit 0) ∧
    (next_world blinker_world.world blinker_world.world_size ∉ blinker_world.states →
      blinker_world.advance.world = next_world blinker_world.world blinker_world.world_size)) :=
  ⟨rfl, by decide, claim_advance_conway_rule blinker_world 0 rfl (by decide)⟩

/-- **C2.** The claim says bits of the packed state at positions `≥ size²` are
never addressed, so `count_nearby_cells` should agree on `s` and
`s mod 2^(size²)`.  The code refutes this: for the validly constructed size
`2` (so `size² = 4`) at the in-range index `2 = size² − size`, the source's
strict `last_row` test `index > size² − size` is false, so the cell reads its
nonexistent "down" neighbours at bit positions `4` and `5`; on the state
`16 = 2^4` the count is `1`, while on `16 mod 2^4 = 0` it is `0`. -/
theorem claim_seed_high_bits_failing_input :
    1 ≤ 2 ∧ (2 : Nat) ≤ MAX_WORLD_SIZE ∧ (2 : Nat) < 2 * 2 ∧
    count_nearby_cells 16 2 2 = 1 ∧
    count_nearby_cells (16 % 2 ^ (2 * 2)) 2 2 = 0 := by
  decide

/-- **C3.** When `advance` (on a not-yet-stable world) computes a next state
already present in history it only latches `stable`, leaving current state and
history unchanged; otherwise it replaces the current state and appends exactly
that new state to history.  In every case the history never shrinks. -/
theorem claim_advance_frame_effect (s : World) :
    (s.stable = false → next_world s.world s.world_size ∈ s.states →
      s.advance = { s with stable := true }) ∧
    (s.stable = false → next_world s.world s.world_size ∉ s.states →
      s.advance = { s with world := next_world s.world s.world_size,
                           states := s.states ++ [next_world s.world s.world_size] }) ∧
    s.states.length ≤ s.advance.states.length := by
  refine ⟨?_, ?_, ?_⟩
  · intro hs hmem
    simp [World.advance, hs, hmem]
  · intro hs hmem
    simp [World.advance, hs, hmem]
  · simp only [World.advance]
    split_ifs <;> simp

theorem claim_advance_frame_effect_witness :
    blinker_world.stable = false ∧
    next_world blinker_world.world blinker_world.world_size ∉ blinker_world.states ∧
    blinker_world.advance =
      { blinker_world with
          world := next_world blinker_world.world blinker_world.world_size,
          states := blinker_world.states ++
            [next_world blinker_world.world blinker_world.world_size] } :=
  ⟨rfl, by decide, (claim_advance_frame_effect blinker_world).2.1 rfl (by decide)⟩

/-- **C4.** For every size `≥ 2`, every packed state and every index
`i < size²`, with border membership decided by the source's boundary flags
(`first_col = i % size = 0`, `last_col = (i+1) % size = 0`,
`first_row = i < size`, `last_row = i > size² − size`): a corner cell (a
column flag and a row flag both set) counts at most 3 neighbours, a border
non-corner cell (some flag set, but not a corner) at most 5, and every cell
at most 8. -/
theorem claim_neighbor_count_bounds (w size i : Nat)
    (hsize : 2 ≤ size) (hi : i < size * size) :
    (((i % size = 0 ∨ (i + 1) % size = 0) ∧ (i < size ∨ i > size * size - size)) →
      count_nearby_cells w size i ≤ 3) ∧
    ((((i % size = 0 ∨ (i + 1) % size = 0) ∨ (i < size ∨ i > size * size - size)) ∧
        ¬((i % size = 0 ∨ (i + 1) % size = 0) ∧ (i < size ∨ i > size * size - size))) →
      count_nearby_cells w size i ≤ 5) ∧
    count_nearby_cells w size i ≤ 8 := by
  have h1 := get_cell_le_one w (i - 1)
  have h2 := get_cell_le_one w (i + 1)
  have h3 := get_cell_le_one w (i - size)
  have h4 := get_cell_le_one w (i - size - 1)
  have h5 := get_cell_le_one w (i - size + 1)
  have h6 := get_cell_le_one w (i + size)
  have h7 := get_cell_le_one w (i + size - 1)
  have h8 := get_cell_le_one w (i + size + 1)
  refine ⟨?_, ?_, ?_⟩
  · rintro ⟨hcol, hrow⟩
    rcases hcol with hc | hc <;> rcases hrow with hr | hr <;>
      · simp only [count_nearby_cells]
        split_ifs <;> omega
  · rintro ⟨hsome, hnc⟩
    rw [not_and_or, not_or, not_or] at hnc
    simp only [count_nearby_cells]
    rcases hnc with ⟨hnc1, hnc2⟩ | ⟨hnr1, hnr2⟩ <;> split_ifs <;> omega
  · simp only [count_nearby_cells]
    split_ifs <;> omega

theorem claim_neighbor_count_bounds_witness :
    2 ≤ 3 ∧ (0 : Nat) < 3 * 3 ∧
    ((((0 : Nat) % 3 = 0 ∨ (0 + 1) % 3 = 0) ∧ ((0 : Nat) < 3 ∨ 0 > 3 * 3 - 3)) →
      count_nearby_cells 211 3 0 ≤ 3) ∧
    (((((0 : Nat) % 3 = 0 ∨ (0 + 1) % 3 = 0) ∨ ((0 : Nat) < 3 ∨ 0 > 3 * 3 - 3)) ∧
        ¬(((0 : Nat) % 3 = 0 ∨ (0 + 1) % 3 = 0) ∧ ((0 : Nat) < 3 ∨ 0 > 3 * 3 - 3))) →
      count_nearby_cells 211 3 0 ≤ 5) ∧
    count_nearby_cells 211 3 0 ≤ 8 :=
  ⟨by decide, by decide, claim_neighbor_count_bounds 211 3 0 (by decide) (by decide)⟩

theorem advance_of_stable (s : World) (h : s.stable = true) : s.advance = s := by
  simp [World.advance, h]

theorem new_unfolded (seed t : Nat) :
    World.new seed t =
      (if t > 50 then Except.error "World size exceeds maximum allowed."
       else if t < 1 then Except.error "World size must be greater than 0"
       else Except.ok { world_size := t, world := seed, states := [seed], stable := false }) :=
  rfl

/-- **C5.** `new(seed, size)` fails with the size-too-large error exactly when
`size > 50`, with the size-too-small error exactly when `size < 1`, and
otherwise succeeds (in particular it succeeds at 50 and fails at 0 and 51);
on success the current state is the seed, the history is `[seed]` and the
stable flag is false. -/
theorem claim_new_validation (seed size : Nat) :
    (World.new seed size = Except.error "World size exceeds maximum allowed." ↔ 50 < size) ∧
    (World.new seed size = Except.error "World size must be greater than 0" ↔ size < 1) ∧
    (1 ≤ size → size ≤ 50 →
      World.new seed size =
        Except.ok { world_size := size, world := seed, states := [seed], stable := false }) ∧
    World.new seed 50 =
      Except.ok { world_size := 50, world := seed, states := [seed], stable := false } ∧
    World.new seed 0 = Except.error "World size must be greater than 0" ∧
    World.new seed 51 = Except.error "World size exceeds maximum allowed." := by
  refine ⟨?_, ?_, ?_, ?_, ?_, ?_⟩
  · rw [new_unfolded]
    split_ifs with hb hs
    · simp [hb]
    · exact iff_of_false (by simp) (by omega)
    · exact iff_of_false (by simp) (by omega)
  · rw [new_unfolded]
    split_ifs with hb hs
    · exact iff_of_false (by simp) (by omega)
    · simp [hs]
    · exact iff_of_false (by simp) (by omega)
  · intro ha hb
    rw [new_unfolded, if_neg (by omega), if_neg (by omega)]
  · rw [new_unfolded, if_neg (by omega), if_neg (by omega)]
  · rfl
  · rfl

theorem claim_new_validation_witness :
    1 ≤ 50 ∧ (50 : Nat) ≤ 50 ∧
    World.new 7 50 =
      Except.ok { world_size := 50, world := 7, states := [7], stable := false } :=
  ⟨by decide, by decide, (claim_new_validation 7 50).2.2.1 (by decide) (by decide)⟩

/-- **C6.** For size 3 and seed bits `011010011` (row-major), four successive
`advance` calls produce, in order, the states with bits `011100011`,
`010100010`, `000110000`, `000000000`; by the 5th `advance` call `is_stable`
returns true and the current state remains `000000000` on every subsequent
call. -/
theorem claim_blinker_scenario :
    World.new 0b011010011 3 = Except.ok blinker_world ∧
    (World.advance^[1] blinker_world).world = 0b011100011 ∧
    (World.advance^[2] blinker_world).world = 0b010100010 ∧
    (World.advance^[3] blinker_world).world = 0b000110000 ∧
    (World.advance^[4] blinker_world).world = 0 ∧
    (World.advance^[5] blinker_world).is_stable = true ∧
    ∀ n : Nat, (World.advance^[5 + n] blinker_world).world = 0 := by
  refine ⟨rfl, by decide, by decide, by decide, by decide, by decide, ?_⟩
  intro n
  have h5 : World.advance^[5] blinker_world =
      { world_size := 3, world := 0,
        states := [0b011010011, 0b011100011, 0b010100010, 0b000110000, 0],
        stable := true } := by decide
  have hfix : ∀ m : Nat, World.advance^[m] (World.advance^[5] blinker_world) =
      World.advance^[5] blinker_world := by
    intro m
    induction m with
    | zero => rfl
    | succ m ih =>
      rw [Function.iterate_succ_apply', ih, h5]
      exact advance_of_stable _ rfl
  rw [Nat.add_comm, Function.iterate_add_apply, hfix n, h5]

/-- **C7.** The stable flag is initially false and monotonic: `advance` never
resets it from true to false, and once `is_stable` is true every subsequent
`advance` is a no-op (current state, history and flag all unchanged). -/
theorem claim_stable_flag_monotonic (seed size : Nat) (w s : World) :
    (World.new seed size = Except.ok w → w.stable = false) ∧
    (s.is_stable = true → s.advance = s) ∧
    (s.is_stable = true → ∀ n : Nat, World.advance^[n] s = s) ∧
    (s.advance.stable = true ∨ s.advance.stable = s.stable) := by
  refine ⟨?_, ?_, ?_, ?_⟩
  · intro h
    rw [new_unfolded] at h
    split_ifs at h with ha hb
    rw [Except.ok.injEq] at h
    subst h
    rfl
  · intro h
    exact advance_of_stable s h
  · intro h n
    induction n with
    | zero => rfl
    | succ n ih => rw [Function.iterate_succ_apply', ih, advance_of_stable s h]
  · cases hst : s.stable
    · simp only [World.advance, hst]
      split_ifs <;> simp [hst]
    · rw [advance_of_stable s hst]
      exact Or.inl hst

theorem claim_stable_flag_monotonic_witness :
    ({ world_size := 1, world := 0, states := [0], stable := true } : World).is_stable = true ∧
    ({ world_size := 1, world := 0, states := [0], stable := true } : World).advance =
      { world_size := 1, world := 0, states := [0], stable := true } :=
  ⟨rfl, (claim_stable_flag_monotonic 5 3
    { world_size := 1, world := 0, states := [0], stable := true }
    { world_size := 1, world := 0, states := [0], stable := true }).2.1 rfl⟩

/-- **C9.** For every validly constructed size (`1 ≤ size ≤ 50`) and every
index `i < size²`, each subtraction in `count_nearby_cells` is performed only
under boundary-flag guards that make it exact (no underflow), and all index
arithmetic stays below `2^16`, the `u16` index type of the source — so no
operation after successful construction can panic. -/
theorem claim_index_arithmetic_safe (size index : Nat)
    (h1 : 1 ≤ size) (h2 : size ≤ MAX_WORLD_SIZE) (hi : index < size * size) :
    (¬ index % size = 0 → (index - 1) + 1 = index) ∧
    (¬ index < size → (index - size) + size = index) ∧
    (¬ index < size → ¬ index % size = 0 → (index - size - 1) + (size + 1) = index) ∧
    (¬ index < size → (index - size + 1) + size = index + 1) ∧
    (size * size - size) + size = size * size ∧
    size * size ≤ 2500 ∧
    index + size + 1 < 2 ^ 16 := by
  simp only [MAX_WORLD_SIZE] at h2
  have hsq : size * size ≤ 50 * 50 := Nat.mul_le_mul h2 h2
  have hs1 : size * 1 ≤ size * size := Nat.mul_le_mul_left size h1
  refine ⟨?_, ?_, ?_, ?_, ?_, ?_, ?_⟩
  · intro h
    rcases Nat.eq_zero_or_pos index with h0 | h0
    · subst h0; simp at h
    · omega
  · intro h; omega
  · intro hrow hcol
    rcases Nat.lt_or_ge size index with hlt | hge
    · omega
    · have hix : index = size := by omega
      subst hix
      simp [Nat.mod_self] at hcol
  · intro h; omega
  · omega
  · omega
  · omega

theorem claim_index_arithmetic_safe_witness :
    1 ≤ 3 ∧ (3 : Nat) ≤ MAX_WORLD_SIZE ∧ (4 : Nat) < 3 * 3 ∧
    ((¬ (4 : Nat) % 3 = 0 → (4 - 1) + 1 = 4) ∧
      (¬ (4 : Nat) < 3 → (4 - 3) + 3 = 4) ∧
      (¬ (4 : Nat) < 3 → ¬ (4 : Nat) % 3 = 0 → (4 - 3 - 1) + (3 + 1) = 4) ∧
      (¬ (4 : Nat) < 3 → (4 - 3 + 1) + 3 = 4 + 1) ∧
      ((3 : Nat) * 3 - 3) + 3 = 3 * 3 ∧
      (3 : Nat) * 3 ≤ 2500 ∧
      (4 : Nat) + 3 + 1 < 2 ^ 16) :=
  ⟨by decide, by decide, by decide,
    claim_index_arithmetic_safe 3 4 (by decide) (by decide) (by decide)⟩

/-- **C10.** The history list holds pairwise-distinct states: it starts as the
one-element list `[seed]`, and `advance` appends a state only after checking
it is not already present, so every operation preserves `Nodup`. -/
theorem claim_history_nodup (seed size : Nat) (w s : World) :
    (World.new seed size = Except.ok w → w.states.Nodup) ∧
    (s.states.Nodup → s.advance.states.Nodup) := by
  constructor
  · intro h
    rw [new_unfolded] at h
    split_ifs at h with ha hb
    rw [Except.ok.injEq] at h
    subst h
    simp
  · intro h
    simp only [World.advance]
    split_ifs with hst hmem
    · exact h
    · exact h
    · simp [List.nodup_append, h, hmem]

theorem claim_history_nodup_witness :
    blinker_world.states.Nodup ∧ blinker_world.advance.states.Nodup :=
  ⟨by decide, (claim_history_nodup 0 1 blinker_world blinker_world).2 (by decide)⟩

end GameOfLife
